import Mathlib

/-
Verification of the run-merging decoration tracker and rectangle geometry of
src/renderer/rects.rs. Pixel-space f32 quantities are modelled as rationals;
f32 rounding (round half away from zero) is modelled by roundAway. Fallible
operations return Option, with none standing for a runtime panic: the
Option::unwrap of an absent last_cell, or the unimplemented fault arm of the
flag match in create_rect.
-/

namespace Alacritty

/-- RGB color as used for cell foregrounds (term::color::Rgb, three u8
channels; channel width is irrelevant to this module, only equality is used). -/
structure Rgb where
  r : Nat
  g : Nat
  b : Nat
deriving DecidableEq

/-- Cell attribute bitflags (term::cell::Flags); a value is a set of bits.
This module queries only the UNDERLINE and STRIKEOUT bits. -/
structure Flags where
  bits : Nat
deriving DecidableEq

/-- Bitflags containment: a.contains b holds when every bit of b is set in a. -/
def Flags.contains (a b : Flags) : Bool := a.bits &&& b.bits == b.bits

/-- The Flags::UNDERLINE bit. -/
def Flags.UNDERLINE : Flags := ⟨8⟩

/-- The Flags::STRIKEOUT bit. -/
def Flags.STRIKEOUT : Flags := ⟨512⟩

/-- The cell data read by rects.rs: grid line, grid column, foreground color
and flag set. The remaining RenderableCell fields (inner, bg, bg_alpha) are
never read by this module and are omitted. -/
structure RenderableCell where
  line : Nat
  column : Nat
  fg : Rgb
  flags : Flags
deriving DecidableEq

/-- Font metric fields consumed by rects.rs. -/
structure Metrics where
  descent : ℚ
  underline_position : ℚ
  underline_thickness : ℚ
  strikeout_position : ℚ
  strikeout_thickness : ℚ
deriving DecidableEq

/-- Terminal size fields consumed by rects.rs. -/
structure SizeInfo where
  cell_width : ℚ
  cell_height : ℚ
  padding_x : ℚ
  padding_y : ℚ
deriving DecidableEq

/-- Rounding to the nearest integer with halves away from zero: the behavior
of f32::round used by create_rect. -/
def roundAway (q : ℚ) : ℚ := if 0 ≤ q then (⌊q + 1 / 2⌋ : ℤ) else (⌈q - 1 / 2⌉ : ℤ)

/-- Pixel rectangle (renderer::rects::Rect). -/
structure Rect (T : Type) where
  x : T
  y : T
  width : T
  height : T
deriving DecidableEq

/-- Rect::new. -/
def Rect.new {T : Type} (x y width height : T) : Rect T := ⟨x, y, width, height⟩

/-- The match at the head of create_rect selecting the metric pair
(position, thickness) for a flag; none models the unimplemented fault arm
reached by any flag other than UNDERLINE and STRIKEOUT. -/
def metric_for (flag : Flags) (metrics : Metrics) : Option (ℚ × ℚ) :=
  if flag = Flags.UNDERLINE then
    some (metrics.underline_position, metrics.underline_thickness)
  else if flag = Flags.STRIKEOUT then
    some (metrics.strikeout_position, metrics.strikeout_thickness)
  else none

/-- renderer::rects::create_rect. Returns none exactly when the flag match
reaches its unimplemented arm. -/
def create_rect (start end_ : RenderableCell) (flag : Flags) (metrics : Metrics)
    (size : SizeInfo) : Option (Rect ℚ × Rgb) :=
  match metric_for flag metrics with
  | none => none
  | some pt =>
    let start_x : ℚ := (start.column : ℚ) * size.cell_width
    let end_x : ℚ := ((end_.column : ℚ) + 1) * size.cell_width
    let width : ℚ := end_x - start_x
    let position : ℚ := pt.1
    let height : ℚ := max pt.2 1
    let cell_bottom : ℚ := ((start.line : ℚ) + 1) * size.cell_height
    let baseline : ℚ := cell_bottom + metrics.descent
    let y : ℚ := baseline - position - height / 2
    let max_y : ℚ := cell_bottom - height
    let y2 : ℚ := if y > max_y then max_y else y
    some (Rect.new (start_x + size.padding_x) (roundAway y2 + size.padding_y)
      width (roundAway height), start.fg)

/-- State of renderer::rects::Rects. The source keeps the per-flag run starts
in a HashMap whose keys are exactly Flags::UNDERLINE and Flags::STRIKEOUT,
inserted once in Rects::new and never added to or removed afterwards, so the
two entries are modelled as two fields. HashMap iteration order is unspecified
in the source; this model fixes underline first, then strikeout (the source
documents cross-kind output order as insignificant). -/
structure Rects where
  inner : List (Rect ℚ × Rgb)
  underline_start : Option RenderableCell
  strikeout_start : Option RenderableCell
  last_cell : Option RenderableCell
  metrics : Metrics
  size : SizeInfo
deriving DecidableEq

/-- Rects::new. -/
def Rects.new (metrics : Metrics) (size : SizeInfo) : Rects :=
  ⟨[], none, none, none, metrics, size⟩

/-- Loop body of Rects::update_lines for one flag entry: the match computing
the entry's new run start. The returned list holds the rectangles this entry
pushes to inner (empty on silent continuation, a singleton on run close).
none models a panic: last_cell.unwrap() on None, or the create_rect fault. -/
def updateKind (flag : Flags) (start_cell last_cell : Option RenderableCell)
    (cell : RenderableCell) (metrics : Metrics) (size : SizeInfo) :
    Option (Option RenderableCell × List (Rect ℚ × Rgb)) :=
  match start_cell with
  | some start =>
    match last_cell with
    | none => none
    | some last =>
      if cell.line == start.line && cell.flags.contains flag
          && cell.fg == start.fg && cell.column == last.column + 1 then
        some (some start, [])
      else
        match create_rect start last flag metrics size with
        | none => none
        | some r => some ((if cell.flags.contains flag then some cell else none), [r])
  | none => some ((if cell.flags.contains flag then some cell else none), [])

/-- Rects::update_lines: run the loop body for both map entries against the
current last_cell, append their emissions to inner, then set last_cell. -/
def Rects.update_lines (rs : Rects) (cell : RenderableCell) : Option Rects :=
  match updateKind Flags.UNDERLINE rs.underline_start rs.last_cell cell rs.metrics rs.size with
  | none => none
  | some us =>
    match updateKind Flags.STRIKEOUT rs.strikeout_start rs.last_cell cell rs.metrics rs.size with
    | none => none
    | some ss =>
      some ⟨rs.inner ++ us.2 ++ ss.2, us.1, ss.1, some cell, rs.metrics, rs.size⟩

/-- Loop body of Rects::rects for one flag entry: flush a still-open run with
the last cell as right edge. none models a panic of last_cell.unwrap() or of
create_rect. -/
def flushKind (flag : Flags) (start_cell last_cell : Option RenderableCell)
    (metrics : Metrics) (size : SizeInfo) : Option (List (Rect ℚ × Rgb)) :=
  match start_cell with
  | none => some []
  | some start =>
    match last_cell with
    | none => none
    | some last =>
      match create_rect start last flag metrics size with
      | none => none
      | some r => some [r]

/-- Rects::rects: flush both entries and return the accumulated list. -/
def Rects.rects (rs : Rects) : Option (List (Rect ℚ × Rgb)) :=
  match flushKind Flags.UNDERLINE rs.underline_start rs.last_cell rs.metrics rs.size with
  | none => none
  | some fu =>
    match flushKind Flags.STRIKEOUT rs.strikeout_start rs.last_cell rs.metrics rs.size with
    | none => none
    | some fs => some (rs.inner ++ fu ++ fs)

/-- Rects::push: append a rectangle, bypassing the merge logic. -/
def Rects.push (rs : Rects) (rect : Rect ℚ) (color : Rgb) : Rects :=
  ⟨rs.inner ++ [(rect, color)], rs.underline_start, rs.strikeout_start,
    rs.last_cell, rs.metrics, rs.size⟩

/-- The run-start entry of the tracker's map for a given flag key. -/
def Rects.startOf (rs : Rects) (flag : Flags) : Option RenderableCell :=
  if flag = Flags.UNDERLINE then rs.underline_start else rs.strikeout_start

/-- An external operation on a tracker: one update_lines call or one push. -/
inductive Op where
  | update : RenderableCell → Op
  | push : Rect ℚ → Rgb → Op
deriving DecidableEq

/-- Run a sequence of operations, propagating a panic as none. -/
def runOps : Rects → List Op → Option Rects
  | rs, [] => some rs
  | rs, Op.update c :: ops =>
    match rs.update_lines c with
    | none => none
    | some rs2 => runOps rs2 ops
  | rs, Op.push rect color :: ops => runOps (rs.push rect color) ops

/-- Per-flag restriction of a sequence of update_lines calls: iterate the
update loop body for one fixed flag, threading the entry's run start and the
shared last_cell, collecting the entry's emitted rectangles in order. -/
def kindRun (flag : Flags) (metrics : Metrics) (size : SizeInfo) :
    Option RenderableCell → Option RenderableCell → List RenderableCell →
    Option (Option RenderableCell × Option RenderableCell × List (Rect ℚ × Rgb))
  | sc, lc, [] => some (sc, lc, [])
  | sc, lc, c :: cs =>
    match updateKind flag sc lc c metrics size with
    | none => none
    | some us =>
      match kindRun flag metrics size us.1 (some c) cs with
      | none => none
      | some out => some (out.1, out.2.1, us.2 ++ out.2.2)

/-- One flag entry's full pipeline over a cell stream from a fresh tracker:
every rectangle the entry emits during the updates and the final flush. -/
def processKind (flag : Flags) (metrics : Metrics) (size : SizeInfo)
    (cells : List RenderableCell) : Option (List (Rect ℚ × Rgb)) :=
  match kindRun flag metrics size none none cells with
  | none => none
  | some out =>
    match flushKind flag out.1 out.2.1 metrics size with
    | none => none
    | some f => some (out.2.2 ++ f)

/-- Per-entry invariant: an open run's start is matched by a present last seen
cell on the same line at a column not before the start's. -/
def KindInv (sc lc : Option RenderableCell) : Prop :=
  ∀ a, sc = some a → ∃ b, lc = some b ∧ a.line = b.line ∧ a.column ≤ b.column

/-- Tracker invariant: both map entries satisfy KindInv. -/
def Inv (rs : Rects) : Prop :=
  KindInv rs.underline_start rs.last_cell ∧ KindInv rs.strikeout_start rs.last_cell

/-- Sample color for concrete evaluations. -/
def rgb0 : Rgb := ⟨255, 80, 0⟩

/-- Sample metrics for concrete evaluations: descent -2, underline position 1,
underline thickness 3/10, strikeout position 4, strikeout thickness 2. -/
def m0 : Metrics := ⟨-2, 1, 3 / 10, 4, 2⟩

/-- Sample metrics that make the bottom clamp fire for underline. -/
def mC : Metrics := ⟨0, -5, 1, 4, 2⟩

/-- Sample size info: cell 8 by 16, padding 2 and 3. -/
def s0 : SizeInfo := ⟨8, 16, 2, 3⟩

/-- Sample underlined cell at line 0 and the given column. -/
def cu (col : Nat) : RenderableCell := ⟨0, col, rgb0, Flags.UNDERLINE⟩

/-- Sample rectangle for push evaluations. -/
def rect0 : Rect ℚ := ⟨1, 2, 3, 4⟩

/-- Update operations for four underlined cells at columns 0 through 3. -/
def ops4 : List Op :=
  [Op.update (cu 0), Op.update (cu 1), Op.update (cu 2), Op.update (cu 3)]

/-- The tracker state reached from fresh after one update with the underlined
cell at column 0: underline run open at that cell, strikeout closed. -/
def rs1 : Rects := ⟨[], some (cu 0), none, some (cu 0), m0, s0⟩

theorem metric_for_underline (m : Metrics) :
    metric_for Flags.UNDERLINE m = some (m.underline_position, m.underline_thickness) := rfl

theorem metric_for_strikeout (m : Metrics) :
    metric_for Flags.STRIKEOUT m = some (m.strikeout_position, m.strikeout_thickness) := rfl

theorem metric_for_valid (flag : Flags) (m : Metrics)
    (h : flag = Flags.UNDERLINE ∨ flag = Flags.STRIKEOUT) :
    ∃ pos th, metric_for flag m = some (pos, th) := by
  rcases h with h | h <;> subst h
  · exact ⟨_, _, metric_for_underline m⟩
  · exact ⟨_, _, metric_for_strikeout m⟩

theorem ite_gt_eq_min (a b : ℚ) : (if a > b then b else a) = min a b := by
  rcases le_or_lt a b with h | h
  · rw [if_neg (not_lt.mpr h), min_eq_left h]
  · rw [if_pos h, min_eq_right h.le]

theorem create_rect_eq (start end_ : RenderableCell) (flag : Flags)
    (m : Metrics) (s : SizeInfo) (pos th : ℚ)
    (hm : metric_for flag m = some (pos, th)) :
    create_rect start end_ flag m s = some
      (Rect.new ((start.column : ℚ) * s.cell_width + s.padding_x)
        (roundAway (min
          (((start.line : ℚ) + 1) * s.cell_height + m.descent - pos - max th 1 / 2)
          (((start.line : ℚ) + 1) * s.cell_height - max th 1)) + s.padding_y)
        (((end_.column : ℚ) + 1 - (start.column : ℚ)) * s.cell_width)
        (roundAway (max th 1)), start.fg) := by
  rw [create_rect, hm]
  dsimp only
  rw [ite_gt_eq_min]
  have hw : ((end_.column : ℚ) + 1) * s.cell_width - (start.column : ℚ) * s.cell_width =
      ((end_.column : ℚ) + 1 - (start.column : ℚ)) * s.cell_width := by ring
  rw [hw]

theorem create_rect_some (start end_ : RenderableCell) (flag : Flags)
    (m : Metrics) (s : SizeInfo)
    (h : flag = Flags.UNDERLINE ∨ flag = Flags.STRIKEOUT) :
    ∃ pr, create_rect start end_ flag m s = some pr := by
  obtain ⟨pos, th, hm⟩ := metric_for_valid flag m h
  exact ⟨_, create_rect_eq start end_ flag m s pos th hm⟩

theorem kindInv_none (lc : Option RenderableCell) : KindInv none lc := by
  intro a ha
  exact absurd ha (by simp)

theorem kindInv_self (c : RenderableCell) : KindInv (some c) (some c) := by
  intro a ha
  obtain rfl : c = a := by simpa using ha
  exact ⟨c, rfl, rfl, le_refl _⟩

theorem kindInv_reopen (cell : RenderableCell) (b : Bool) :
    KindInv (if b then some cell else none) (some cell) := by
  cases b
  · simpa using kindInv_none (some cell)
  · simpa using kindInv_self cell

theorem updateKind_some (flag : Flags) (sc lc : Option RenderableCell)
    (cell : RenderableCell) (m : Metrics) (s : SizeInfo)
    (hflag : flag = Flags.UNDERLINE ∨ flag = Flags.STRIKEOUT)
    (hinv : KindInv sc lc) :
    ∃ us, updateKind flag sc lc cell m s = some us ∧ KindInv us.1 (some cell) := by
  cases sc with
  | none =>
    exact ⟨_, rfl, kindInv_reopen cell _⟩
  | some start =>
    obtain ⟨b, hb, hline, hcol⟩ := hinv start rfl
    subst hb
    by_cases hcond : (cell.line == start.line && cell.flags.contains flag
        && cell.fg == start.fg && cell.column == b.column + 1) = true
    · refine ⟨(some start, []), ?_, ?_⟩
      · simp only [updateKind, if_pos hcond]
      · intro a ha
        obtain rfl : start = a := by simpa using ha
        simp only [Bool.and_eq_true, beq_iff_eq] at hcond
        exact ⟨cell, rfl, hcond.1.1.1.symm, by omega⟩
    · obtain ⟨pr, hpr⟩ := create_rect_some start b flag m s hflag
      refine ⟨((if cell.flags.contains flag then some cell else none), [pr]), ?_, ?_⟩
      · simp only [updateKind, if_neg hcond, hpr]
      · exact kindInv_reopen cell _

theorem inv_new (m : Metrics) (s : SizeInfo) : Inv (Rects.new m s) :=
  ⟨kindInv_none none, kindInv_none none⟩

theorem update_lines_some (rs : Rects) (cell : RenderableCell) (h : Inv rs) :
    ∃ rs2, rs.update_lines cell = some rs2 ∧ Inv rs2 ∧
      (∃ t, rs2.inner = rs.inner ++ t) ∧
      rs2.metrics = rs.metrics ∧ rs2.size = rs.size ∧ rs2.last_cell = some cell := by
  obtain ⟨us, hus, hu⟩ := updateKind_some Flags.UNDERLINE rs.underline_start rs.last_cell
    cell rs.metrics rs.size (Or.inl rfl) h.1
  obtain ⟨ss, hss, hs⟩ := updateKind_some Flags.STRIKEOUT rs.strikeout_start rs.last_cell
    cell rs.metrics rs.size (Or.inr rfl) h.2
  refine ⟨⟨rs.inner ++ us.2 ++ ss.2, us.1, ss.1, some cell, rs.metrics, rs.size⟩, ?_, ?_, ?_, rfl, rfl, rfl⟩
  · rw [Rects.update_lines, hus, hss]
  · exact ⟨hu, hs⟩
  · exact ⟨us.2 ++ ss.2, by simp⟩

theorem push_state (rs : Rects) (rect : Rect ℚ) (color : Rgb) :
    (rs.push rect color).underline_start = rs.underline_start ∧
    (rs.push rect color).strikeout_start = rs.strikeout_start ∧
    (rs.push rect color).last_cell = rs.last_cell ∧
    (rs.push rect color).metrics = rs.metrics ∧
    (rs.push rect color).size = rs.size ∧
    (rs.push rect color).inner = rs.inner ++ [(rect, color)] :=
  ⟨rfl, rfl, rfl, rfl, rfl, rfl⟩

theorem push_inv (rs : Rects) (rect : Rect ℚ) (color : Rgb) (h : Inv rs) :
    Inv (rs.push rect color) := h

theorem runOps_some (ops : List Op) :
    ∀ rs : Rects, Inv rs →
      ∃ rs2, runOps rs ops = some rs2 ∧ Inv rs2 ∧
        (∃ t, rs2.inner = rs.inner ++ t) ∧
        rs2.metrics = rs.metrics ∧ rs2.size = rs.size := by
  induction ops with
  | nil => exact fun rs h => ⟨rs, rfl, h, ⟨[], by simp⟩, rfl, rfl⟩
  | cons op ops ih =>
    intro rs h
    cases op with
    | update c =>
      obtain ⟨rs1, h1, hinv1, ⟨t1, ht1⟩, hm1, hs1, _⟩ := update_lines_some rs c h
      obtain ⟨rs2, h2, hinv2, ⟨t2, ht2⟩, hm2, hs2⟩ := ih rs1 hinv1
      refine ⟨rs2, ?_, hinv2, ⟨t1 ++ t2, by rw [ht2, ht1, List.append_assoc]⟩,
        hm2.trans hm1, hs2.trans hs1⟩
      rw [runOps, h1]
      exact h2
    | push rect color =>
      obtain ⟨rs2, h2, hinv2, ⟨t2, ht2⟩, hm2, hs2⟩ := ih (rs.push rect color) h
      exact ⟨rs2, h2, hinv2, ⟨(rect, color) :: t2, by rw [ht2]; simp [Rects.push]⟩, hm2, hs2⟩

theorem reachable_inv (m : Metrics) (s : SizeInfo) (ops : List Op) (rs : Rects)
    (h : runOps (Rects.new m s) ops = some rs) :
    Inv rs ∧ rs.metrics = m ∧ rs.size = s := by
  obtain ⟨rs2, h2, hinv2, _, hm2, hs2⟩ := runOps_some ops (Rects.new m s) (inv_new m s)
  rw [h] at h2
  obtain rfl : rs = rs2 := by simpa using h2
  exact ⟨hinv2, hm2, hs2⟩

theorem flushKind_some (flag : Flags) (sc lc : Option RenderableCell)
    (m : Metrics) (s : SizeInfo)
    (hflag : flag = Flags.UNDERLINE ∨ flag = Flags.STRIKEOUT)
    (hinv : KindInv sc lc) :
    ∃ f, flushKind flag sc lc m s = some f := by
  cases sc with
  | none => exact ⟨[], rfl⟩
  | some start =>
    obtain ⟨b, hb, _, _⟩ := hinv start rfl
    subst hb
    obtain ⟨pr, hpr⟩ := create_rect_some start b flag m s hflag
    exact ⟨[pr], by rw [flushKind, hpr]⟩

theorem rects_eq (rs : Rects) (h : Inv rs) :
    ∃ fu fs, flushKind Flags.UNDERLINE rs.underline_start rs.last_cell rs.metrics rs.size = some fu ∧
      flushKind Flags.STRIKEOUT rs.strikeout_start rs.last_cell rs.metrics rs.size = some fs ∧
      rs.rects = some (rs.inner ++ fu ++ fs) := by
  obtain ⟨fu, hfu⟩ := flushKind_some Flags.UNDERLINE rs.underline_start rs.last_cell
    rs.metrics rs.size (Or.inl rfl) h.1
  obtain ⟨fs, hfs⟩ := flushKind_some Flags.STRIKEOUT rs.strikeout_start rs.last_cell
    rs.metrics rs.size (Or.inr rfl) h.2
  exact ⟨fu, fs, hfu, hfs, by rw [Rects.rects, hfu, hfs]⟩

theorem runOps_push_mem (ops : List Op) :
    ∀ (rs : Rects) (rect : Rect ℚ) (color : Rgb), Inv rs →
      Op.push rect color ∈ ops →
      ∃ rs2, runOps rs ops = some rs2 ∧ (rect, color) ∈ rs2.inner := by
  induction ops with
  | nil => intro rs rect color _ hmem; exact absurd hmem (by simp)
  | cons op ops ih =>
    intro rs rect color hinv hmem
    rcases List.mem_cons.mp hmem with heq | htail
    · subst heq
      obtain ⟨rs2, h2, _, ⟨t, ht⟩, _, _⟩ := runOps_some ops (rs.push rect color)
        (push_inv rs rect color hinv)
      refine ⟨rs2, h2, ?_⟩
      rw [ht, (push_state rs rect color).2.2.2.2.2]
      simp
    · cases op with
      | update c =>
        obtain ⟨rs1, h1, hinv1, _, _, _⟩ := update_lines_some rs c hinv
        obtain ⟨rs2, h2, hm2⟩ := ih rs1 rect color hinv1 htail
        refine ⟨rs2, ?_, hm2⟩
        rw [runOps, h1]
        exact h2
      | push r c =>
        exact ih (rs.push r c) rect color (push_inv rs r c hinv) htail

theorem kindRun_steady (flag : Flags) (m : Metrics) (s : SizeInfo)
    (start : RenderableCell) :
    ∀ (cells : List RenderableCell) (prev : RenderableCell),
      (∀ c ∈ cells, c.line = start.line ∧ c.flags.contains flag = true ∧ c.fg = start.fg) →
      List.Chain' (fun a b => b.column = a.column + 1) (prev :: cells) →
      ∃ last, (prev :: cells).getLast? = some last ∧
        kindRun flag m s (some start) (some prev) cells = some (some start, some last, []) := by
  intro cells
  induction cells with
  | nil => exact fun prev _ _ => ⟨prev, rfl, rfl⟩
  | cons c cs ih =>
    intro prev hsame hadj
    have hrel : c.column = prev.column + 1 := (List.chain'_cons.mp hadj).1
    have hc := hsame c (by simp)
    have hcond : (c.line == start.line && c.flags.contains flag
        && c.fg == start.fg && c.column == prev.column + 1) = true := by
      simp only [Bool.and_eq_true, beq_iff_eq]
      exact ⟨⟨⟨hc.1, hc.2.1⟩, hc.2.2⟩, hrel⟩
    have hstep : updateKind flag (some start) (some prev) c m s = some (some start, []) := by
      simp only [updateKind, if_pos hcond]
    obtain ⟨last, hlast, hrun⟩ := ih c (fun d hd => hsame d (by simp [hd]))
      (List.chain'_cons.mp hadj).2
    refine ⟨last, ?_, ?_⟩
    · rw [List.getLast?_cons_cons]
      exact hlast
    · rw [kindRun, hstep]
      dsimp only
      rw [hrun]
      rfl

/-- C1: with a run open at start and last the last processed cell, the update
loop body leaves the run open and unchanged (same start, no emission) exactly
when the cell stays on the run's line, carries the flag, keeps the run's
foreground, and is column-adjacent to the last processed cell (not to the run
start); otherwise it emits exactly the one rectangle create_rect start last
flag, and re-opens the run at the cell exactly when the cell carries the flag,
else leaves it closed. -/
theorem claim_C1_update_transition (flag : Flags) (start last cell : RenderableCell)
    (m : Metrics) (s : SizeInfo)
    (hflag : flag = Flags.UNDERLINE ∨ flag = Flags.STRIKEOUT) :
    (updateKind flag (some start) (some last) cell m s = some (some start, []) ↔
      (cell.line = start.line ∧ cell.flags.contains flag = true ∧
        cell.fg = start.fg ∧ cell.column = last.column + 1)) ∧
    (¬(cell.line = start.line ∧ cell.flags.contains flag = true ∧
        cell.fg = start.fg ∧ cell.column = last.column + 1) →
      ∃ r, create_rect start last flag m s = some r ∧
        updateKind flag (some start) (some last) cell m s =
          some ((if cell.flags.contains flag then some cell else none), [r])) := by
  have hbP : (cell.line == start.line && cell.flags.contains flag
      && cell.fg == start.fg && cell.column == last.column + 1) = true ↔
      (cell.line = start.line ∧ cell.flags.contains flag = true ∧
        cell.fg = start.fg ∧ cell.column = last.column + 1) := by
    simp only [Bool.and_eq_true, beq_iff_eq]
    tauto
  obtain ⟨pr, hpr⟩ := create_rect_some start last flag m s hflag
  constructor
  · constructor
    · intro h
      by_cases hcond : (cell.line == start.line && cell.flags.contains flag
          && cell.fg == start.fg && cell.column == last.column + 1) = true
      · exact hbP.mp hcond
      · exfalso
        simp only [updateKind, if_neg hcond, hpr] at h
        simp at h
    · intro hP
      simp only [updateKind, if_pos (hbP.mpr hP)]
  · intro hP
    have hcond : ¬(cell.line == start.line && cell.flags.contains flag
        && cell.fg == start.fg && cell.column == last.column + 1) = true :=
      fun hb => hP (hbP.mp hb)
    refine ⟨pr, hpr, ?_⟩
    simp only [updateKind, if_neg hcond, hpr]

/-- C1 witness: a concrete continuation step leaves the run untouched. -/
theorem claim_C1_witness :
    updateKind Flags.UNDERLINE (some (cu 0)) (some (cu 0)) (cu 1) m0 s0 =
      some (some (cu 0), []) :=
  (claim_C1_update_transition Flags.UNDERLINE (cu 0) (cu 0) (cu 1) m0 s0
    (Or.inl rfl)).1.mpr (by decide)

/-- C2: for any start cell, end cell and flag with a declared metric pair,
create_rect returns the rectangle with x equal to start.column times
cell_width plus padding_x, unrounded width (end.column + 1 - start.column)
times cell_width, height the rounding of the thickness clamped below by 1, and
y the rounding of min (baseline - position - thickness/2) (cell_bottom -
thickness) plus padding_y, paired with the start cell's foreground; a metric
thickness of 3/10 yields a rounded stroke height of exactly 1. -/
theorem claim_C2_create_rect_geometry (start end_ : RenderableCell) (flag : Flags)
    (m : Metrics) (s : SizeInfo) (pos th : ℚ)
    (hm : metric_for flag m = some (pos, th)) :
    create_rect start end_ flag m s = some
      (Rect.new ((start.column : ℚ) * s.cell_width + s.padding_x)
        (roundAway (min
          (((start.line : ℚ) + 1) * s.cell_height + m.descent - pos - max th 1 / 2)
          (((start.line : ℚ) + 1) * s.cell_height - max th 1)) + s.padding_y)
        (((end_.column : ℚ) + 1 - (start.column : ℚ)) * s.cell_width)
        (roundAway (max th 1)), start.fg) ∧
    (th = 3 / 10 → roundAway (max th 1) = 1) := by
  refine ⟨create_rect_eq start end_ flag m s pos th hm, ?_⟩
  intro h
  subst h
  norm_num [roundAway, max_def]

/-- C2 witness: concrete geometry for an underline with thickness 3/10 over
cells at columns 0 and 3 at 8 by 16 cells, giving height 1 and unrounded
width 32. -/
theorem claim_C2_witness :
    create_rect (cu 0) (cu 3) Flags.UNDERLINE m0 s0 = some (Rect.new 2 16 32 1, rgb0) := by
  have h := claim_C2_create_rect_geometry (cu 0) (cu 3) Flags.UNDERLINE m0 s0
    1 (3 / 10) rfl
  rw [h.1]
  norm_num [cu, m0, s0, rgb0, Rect.new, roundAway, max_def, min_def]

/-- C3 counterexample: the no-metric case is not statically unrepresentable;
the flag match in create_rect has a fault arm that a flag value other than
UNDERLINE and STRIKEOUT (here the WRAPLINE bit 16) does reach. -/
theorem claim_C3_counterexample :
    create_rect (cu 0) (cu 0) (Flags.mk 16) m0 s0 = none := by decide

/-- C3 amended: although the fault arm exists in create_rect, no call to it
arising from any sequence of update, push and finalize operations on a fresh
tracker can reach it (nor any other panic): the run table holds exactly the
UNDERLINE and STRIKEOUT keys, so every run of operations and the final flush
succeed. -/
theorem claim_C3_no_fault_reachable (m : Metrics) (s : SizeInfo) (ops : List Op) :
    ∃ rs out, runOps (Rects.new m s) ops = some rs ∧ rs.rects = some out := by
  obtain ⟨rs, hrs, hinv, _, _, _⟩ := runOps_some ops (Rects.new m s) (inv_new m s)
  obtain ⟨fu, fs, _, _, hout⟩ := rects_eq rs hinv
  exact ⟨rs, _, hrs, hout⟩

/-- C6: whenever the unclamped stroke position baseline - position -
thickness/2 exceeds cell_bottom - thickness (thickness already clamped below
by 1), the emitted y coordinate equals the rounding of cell_bottom - thickness
plus padding_y. -/
theorem claim_C6_bottom_clamp (start end_ : RenderableCell) (flag : Flags)
    (m : Metrics) (s : SizeInfo) (pos th : ℚ)
    (hm : metric_for flag m = some (pos, th))
    (hy : ((start.line : ℚ) + 1) * s.cell_height + m.descent - pos - max th 1 / 2 >
      ((start.line : ℚ) + 1) * s.cell_height - max th 1) :
    ∃ pr, create_rect start end_ flag m s = some pr ∧
      pr.1.y = roundAway (((start.line : ℚ) + 1) * s.cell_height - max th 1) +
        s.padding_y := by
  refine ⟨_, create_rect_eq start end_ flag m s pos th hm, ?_⟩
  dsimp [Rect.new]
  rw [min_eq_right (le_of_lt hy)]

/-- C6 witness: with descent 0, underline position -5 and thickness 1, the
clamp fires and y is the rounding of cell_bottom - 1 plus padding_y. -/
theorem claim_C6_witness :
    ∃ pr, create_rect (cu 0) (cu 0) Flags.UNDERLINE mC s0 = some pr ∧
      pr.1.y = roundAway ((((cu 0).line : ℚ) + 1) * s0.cell_height - max 1 1) +
        s0.padding_y :=
  claim_C6_bottom_clamp (cu 0) (cu 0) Flags.UNDERLINE mC s0 (-5) 1 rfl
    (by norm_num [cu, mC, s0, max_def])

/-- C4: for a nonempty sequence of cells all on the first cell's line, all
carrying the flag, all with the first cell's foreground, and with strictly
consecutive columns, the flag's entry emits across all updates and the final
flush exactly one rectangle, spanning from the first cell's column to the last
cell's column, whatever the sequence length. -/
theorem claim_C4_run_continuity (flag : Flags) (m : Metrics) (s : SizeInfo)
    (first : RenderableCell) (rest : List RenderableCell)
    (hflag : flag = Flags.UNDERLINE ∨ flag = Flags.STRIKEOUT)
    (hsame : ∀ c ∈ first :: rest, c.line = first.line ∧
      c.flags.contains flag = true ∧ c.fg = first.fg)
    (hadj : List.Chain' (fun a b => b.column = a.column + 1) (first :: rest)) :
    ∃ last r, (first :: rest).getLast? = some last ∧
      create_rect first last flag m s = some r ∧
      r.1.width = ((last.column : ℚ) + 1 - (first.column : ℚ)) * s.cell_width ∧
      processKind flag m s (first :: rest) = some [r] := by
  have hfirst := hsame first (by simp)
  have h0 : updateKind flag none none first m s = some (some first, []) := by
    simp only [updateKind]
    rw [if_pos hfirst.2.1]
  obtain ⟨last, hlast, hrun⟩ := kindRun_steady flag m s first rest first
    (fun d hd => hsame d (by simp [hd])) hadj
  have hfull : kindRun flag m s none none (first :: rest) =
      some (some first, some last, []) := by
    rw [kindRun, h0]
    dsimp only
    rw [hrun]
    rfl
  obtain ⟨pos, th, hm⟩ := metric_for_valid flag m hflag
  have hcr := create_rect_eq first last flag m s pos th hm
  have hflush : flushKind flag (some first) (some last) m s = some
      [(Rect.new ((first.column : ℚ) * s.cell_width + s.padding_x)
        (roundAway (min
          (((first.line : ℚ) + 1) * s.cell_height + m.descent - pos - max th 1 / 2)
          (((first.line : ℚ) + 1) * s.cell_height - max th 1)) + s.padding_y)
        (((last.column : ℚ) + 1 - (first.column : ℚ)) * s.cell_width)
        (roundAway (max th 1)), first.fg)] := by
    simp only [flushKind, hcr]
  refine ⟨last, _, hlast, hcr, rfl, ?_⟩
  rw [processKind, hfull]
  dsimp only
  rw [hflush]
  rfl

/-- C4 witness: two adjacent underlined cells produce exactly one rectangle. -/
theorem claim_C4_witness :
    ∃ last r, [cu 0, cu 1].getLast? = some last ∧
      create_rect (cu 0) last Flags.UNDERLINE m0 s0 = some r ∧
      r.1.width = ((last.column : ℚ) + 1 - ((cu 0).column : ℚ)) * s0.cell_width ∧
      processKind Flags.UNDERLINE m0 s0 [cu 0, cu 1] = some [r] :=
  claim_C4_run_continuity Flags.UNDERLINE m0 s0 (cu 0) [cu 1] (Or.inl rfl)
    (by decide) (by simp [List.chain'_cons, cu])

theorem flushKind_some_of_last (flag : Flags) (sc : Option RenderableCell)
    (last : RenderableCell) (m : Metrics) (s : SizeInfo)
    (hflag : flag = Flags.UNDERLINE ∨ flag = Flags.STRIKEOUT) :
    ∃ f, flushKind flag sc (some last) m s = some f := by
  cases sc with
  | none => exact ⟨[], rfl⟩
  | some a =>
    obtain ⟨pr, hpr⟩ := create_rect_some a last flag m s hflag
    exact ⟨[pr], by simp only [flushKind, hpr]⟩

/-- C5: for a flag whose run is still open when finalize runs, the flush emits
exactly one rectangle built from the run's start cell as left edge and the
last processed cell as right edge, and that rectangle is in the returned list;
concretely, four underlined cells at columns 0 through 3 on one line with one
color yield after finalize a single rectangle of width 4 times cell_width. -/
theorem claim_C5_flush_on_finalize (flag : Flags) (rs : Rects)
    (start last : RenderableCell)
    (hflag : flag = Flags.UNDERLINE ∨ flag = Flags.STRIKEOUT)
    (hopen : rs.startOf flag = some start) (hl : rs.last_cell = some last) :
    (∃ pr, create_rect start last flag rs.metrics rs.size = some pr ∧
      flushKind flag (rs.startOf flag) rs.last_cell rs.metrics rs.size = some [pr] ∧
      ∃ out, rs.rects = some out ∧ pr ∈ out) ∧
    (∃ out, (runOps (Rects.new m0 s0) ops4).bind Rects.rects = some out ∧
      ∃ pr, out = [pr] ∧ (pr : Rect ℚ × Rgb).1.width = 4 * s0.cell_width) := by
  constructor
  · rcases hflag with h | h <;> subst h
    · have hso : rs.startOf Flags.UNDERLINE = rs.underline_start := by
        simp [Rects.startOf]
      have hopen2 : rs.underline_start = some start := by rw [← hso]; exact hopen
      obtain ⟨pr, hpr⟩ := create_rect_some start last Flags.UNDERLINE rs.metrics rs.size
        (Or.inl rfl)
      have hfu : flushKind Flags.UNDERLINE rs.underline_start rs.last_cell
          rs.metrics rs.size = some [pr] := by
        rw [hopen2, hl]
        simp only [flushKind, hpr]
      obtain ⟨fs, hfs⟩ := flushKind_some_of_last Flags.STRIKEOUT rs.strikeout_start last
        rs.metrics rs.size (Or.inr rfl)
      have hfs2 : flushKind Flags.STRIKEOUT rs.strikeout_start rs.last_cell
          rs.metrics rs.size = some fs := by rw [hl]; exact hfs
      refine ⟨pr, hpr, by rw [hso]; exact hfu, ?_⟩
      refine ⟨rs.inner ++ [pr] ++ fs, ?_, by simp⟩
      rw [Rects.rects, hfu]
      dsimp only
      rw [hfs2]
    · have hso : rs.startOf Flags.STRIKEOUT = rs.strikeout_start := by
        simp [Rects.startOf, Flags.STRIKEOUT, Flags.UNDERLINE]
      have hopen2 : rs.strikeout_start = some start := by rw [← hso]; exact hopen
      obtain ⟨pr, hpr⟩ := create_rect_some start last Flags.STRIKEOUT rs.metrics rs.size
        (Or.inr rfl)
      have hfs : flushKind Flags.STRIKEOUT rs.strikeout_start rs.last_cell
          rs.metrics rs.size = some [pr] := by
        rw [hopen2, hl]
        simp only [flushKind, hpr]
      obtain ⟨fu, hfu⟩ := flushKind_some_of_last Flags.UNDERLINE rs.underline_start last
        rs.metrics rs.size (Or.inl rfl)
      have hfu2 : flushKind Flags.UNDERLINE rs.underline_start rs.last_cell
          rs.metrics rs.size = some fu := by rw [hl]; exact hfu
      refine ⟨pr, hpr, by rw [hso]; exact hfs, ?_⟩
      refine ⟨rs.inner ++ fu ++ [pr], ?_, by simp⟩
      rw [Rects.rects, hfu2]
      dsimp only
      rw [hfs]
  · have hrun : runOps (Rects.new m0 s0) ops4 =
        some (⟨[], some (cu 0), none, some (cu 3), m0, s0⟩ : Rects) := rfl
    have hcr : create_rect (cu 0) (cu 3) Flags.UNDERLINE m0 s0 =
        some (Rect.new 2 16 32 1, rgb0) := by
      rw [create_rect_eq (cu 0) (cu 3) Flags.UNDERLINE m0 s0 1 (3 / 10) rfl]
      norm_num [cu, m0, s0, rgb0, Rect.new, roundAway, max_def, min_def]
    have hrects : (Rects.rects ⟨[], some (cu 0), none, some (cu 3), m0, s0⟩) =
        some [(Rect.new 2 16 32 1, rgb0)] := by
      simp only [Rects.rects, flushKind, hcr]
      rfl
    rw [hrun]
    refine ⟨[(Rect.new 2 16 32 1, rgb0)], ?_, (Rect.new 2 16 32 1, rgb0), rfl, ?_⟩
    · simpa [Option.bind] using hrects
    · norm_num [s0, Rect.new]

/-- C5 witness: a tracker with an open one-cell underline run flushes it as a
single rectangle between that cell and itself. -/
theorem claim_C5_witness :
    (∃ pr, create_rect (cu 0) (cu 0) Flags.UNDERLINE rs1.metrics rs1.size = some pr ∧
      flushKind Flags.UNDERLINE (rs1.startOf Flags.UNDERLINE) rs1.last_cell
        rs1.metrics rs1.size = some [pr] ∧
      ∃ out, rs1.rects = some out ∧ pr ∈ out) ∧
    (∃ out, (runOps (Rects.new m0 s0) ops4).bind Rects.rects = some out ∧
      ∃ pr, out = [pr] ∧ (pr : Rect ℚ × Rgb).1.width = 4 * s0.cell_width) :=
  claim_C5_flush_on_finalize Flags.UNDERLINE rs1 (cu 0) (cu 0) (Or.inl rfl) rfl rfl

/-- C7: in every state reachable by running operations on a fresh tracker, an
open run for either kind implies the last seen cell is present, and therefore
both the next update call and the finalize flush are well-defined (they never
hit the none branch modelling a panic). -/
theorem claim_C7_open_requires_last (m : Metrics) (s : SizeInfo) (ops : List Op)
    (rs : Rects) (h : runOps (Rects.new m s) ops = some rs) :
    (rs.underline_start.isSome = true → rs.last_cell.isSome = true) ∧
    (rs.strikeout_start.isSome = true → rs.last_cell.isSome = true) ∧
    (∀ c, (rs.update_lines c).isSome = true) ∧ rs.rects.isSome = true := by
  obtain ⟨hinv, _, _⟩ := reachable_inv m s ops rs h
  refine ⟨?_, ?_, ?_, ?_⟩
  · intro hu
    obtain ⟨a, ha⟩ := Option.isSome_iff_exists.mp hu
    obtain ⟨b, hb, _, _⟩ := hinv.1 a ha
    rw [hb]
    rfl
  · intro hu
    obtain ⟨a, ha⟩ := Option.isSome_iff_exists.mp hu
    obtain ⟨b, hb, _, _⟩ := hinv.2 a ha
    rw [hb]
    rfl
  · intro c
    obtain ⟨rs2, h2, _⟩ := update_lines_some rs c hinv
    rw [h2]
    rfl
  · obtain ⟨fu, fs, _, _, hout⟩ := rects_eq rs hinv
    rw [hout]
    rfl

/-- C7 witness: the invariant and well-definedness at the concrete reachable
state rs1. -/
theorem claim_C7_witness :
    (rs1.underline_start.isSome = true → rs1.last_cell.isSome = true) ∧
    (rs1.strikeout_start.isSome = true → rs1.last_cell.isSome = true) ∧
    (∀ c, (rs1.update_lines c).isSome = true) ∧ rs1.rects.isSome = true :=
  claim_C7_open_requires_last m0 s0 [Op.update (cu 0)] rs1 rfl

/-- C8: in every reachable state, an open run's start line equals the line of
the last seen cell; moreover an update whose cell is on a different line from
an open run's start always closes that run, emitting its rectangle, and the
run state afterwards is the new cell when flagged, else closed. -/
theorem claim_C8_same_line (m : Metrics) (s : SizeInfo) (ops : List Op)
    (rs : Rects) (h : runOps (Rects.new m s) ops = some rs) :
    (∀ a b, rs.underline_start = some a → rs.last_cell = some b → a.line = b.line) ∧
    (∀ a b, rs.strikeout_start = some a → rs.last_cell = some b → a.line = b.line) ∧
    (∀ (flag : Flags) (a b cell : RenderableCell),
      (flag = Flags.UNDERLINE ∨ flag = Flags.STRIKEOUT) → cell.line ≠ a.line →
      ∃ r, create_rect a b flag m s = some r ∧
        updateKind flag (some a) (some b) cell m s =
          some ((if cell.flags.contains flag then some cell else none), [r])) := by
  obtain ⟨hinv, _, _⟩ := reachable_inv m s ops rs h
  refine ⟨?_, ?_, ?_⟩
  · intro a b ha hb
    obtain ⟨b2, hb2, hline, _⟩ := hinv.1 a ha
    rw [hb] at hb2
    obtain rfl : b = b2 := by simpa using hb2
    exact hline
  · intro a b ha hb
    obtain ⟨b2, hb2, hline, _⟩ := hinv.2 a ha
    rw [hb] at hb2
    obtain rfl : b = b2 := by simpa using hb2
    exact hline
  · intro flag a b cell hflag hline
    obtain ⟨pr, hpr⟩ := create_rect_some a b flag m s hflag
    have hcond : ¬((cell.line == a.line && cell.flags.contains flag
        && cell.fg == a.fg && cell.column == b.column + 1) = true) := by
      simp only [Bool.and_eq_true, beq_iff_eq]
      intro hcontra
      exact hline hcontra.1.1.1
    refine ⟨pr, hpr, ?_⟩
    simp only [updateKind, if_neg hcond, hpr]

/-- C8 witness: the line invariant and forced closure at the concrete
reachable state rs1. -/
theorem claim_C8_witness :
    (∀ a b, rs1.underline_start = some a → rs1.last_cell = some b → a.line = b.line) ∧
    (∀ a b, rs1.strikeout_start = some a → rs1.last_cell = some b → a.line = b.line) ∧
    (∀ (flag : Flags) (a b cell : RenderableCell),
      (flag = Flags.UNDERLINE ∨ flag = Flags.STRIKEOUT) → cell.line ≠ a.line →
      ∃ r, create_rect a b flag m0 s0 = some r ∧
        updateKind flag (some a) (some b) cell m0 s0 =
          some ((if cell.flags.contains flag then some cell else none), [r])) :=
  claim_C8_same_line m0 s0 [Op.update (cu 0)] rs1 rfl

/-- C9: a rectangle and color pair added through the push bypass path appears
in the finalize output exactly as given, whatever updates and pushes surround
it, and a push changes neither run entry nor the last seen cell. -/
theorem claim_C9_append_independence (m : Metrics) (s : SizeInfo) (ops : List Op)
    (rs : Rects) (rect : Rect ℚ) (color : Rgb)
    (h : runOps (Rects.new m s) ops = some rs) (hmem : Op.push rect color ∈ ops) :
    (∃ out, rs.rects = some out ∧ (rect, color) ∈ out) ∧
    (∀ rs2 : Rects, (rs2.push rect color).underline_start = rs2.underline_start ∧
      (rs2.push rect color).strikeout_start = rs2.strikeout_start ∧
      (rs2.push rect color).last_cell = rs2.last_cell) := by
  obtain ⟨rs2, h2, hmem2⟩ := runOps_push_mem ops (Rects.new m s) rect color
    (inv_new m s) hmem
  rw [h] at h2
  obtain rfl : rs = rs2 := by simpa using h2
  obtain ⟨hinv, _, _⟩ := reachable_inv m s ops rs h
  obtain ⟨fu, fs, _, _, hout⟩ := rects_eq rs hinv
  exact ⟨⟨rs.inner ++ fu ++ fs, hout,
    List.mem_append_left fs (List.mem_append_left fu hmem2)⟩,
    fun rs3 => ⟨rfl, rfl, rfl⟩⟩

/-- C9 witness: a single pushed rectangle appears in the finalize output. -/
theorem claim_C9_witness :
    (∃ out, (⟨[(rect0, rgb0)], none, none, none, m0, s0⟩ : Rects).rects = some out ∧
      (rect0, rgb0) ∈ out) ∧
    (∀ rs2 : Rects, (rs2.push rect0 rgb0).underline_start = rs2.underline_start ∧
      (rs2.push rect0 rgb0).strikeout_start = rs2.strikeout_start ∧
      (rs2.push rect0 rgb0).last_cell = rs2.last_cell) :=
  claim_C9_append_independence m0 s0 [Op.push rect0 rgb0]
    ⟨[(rect0, rgb0)], none, none, none, m0, s0⟩ rect0 rgb0 rfl (by simp)

/-- C10: in every reachable state, an open run's start column is at most the
last seen cell's column, and consequently any rectangle built by the merge
path from such a pair has width (end.column + 1 - start.column) times
cell_width, which is at least one cell_width whenever cell_width is positive. -/
theorem claim_C10_width_positive (m : Metrics) (s : SizeInfo) (ops : List Op)
    (rs : Rects) (h : runOps (Rects.new m s) ops = some rs) :
    (∀ a b, rs.underline_start = some a → rs.last_cell = some b → a.column ≤ b.column) ∧
    (∀ a b, rs.strikeout_start = some a → rs.last_cell = some b → a.column ≤ b.column) ∧
    (∀ (a b : RenderableCell) (flag : Flags) (pos th : ℚ) (pr : Rect ℚ × Rgb),
      a.column ≤ b.column → metric_for flag m = some (pos, th) →
      create_rect a b flag m s = some pr →
      pr.1.width = ((b.column : ℚ) + 1 - (a.column : ℚ)) * s.cell_width ∧
      (0 < s.cell_width → s.cell_width ≤ pr.1.width)) := by
  obtain ⟨hinv, _, _⟩ := reachable_inv m s ops rs h
  refine ⟨?_, ?_, ?_⟩
  · intro a b ha hb
    obtain ⟨b2, hb2, _, hcol⟩ := hinv.1 a ha
    rw [hb] at hb2
    obtain rfl : b = b2 := by simpa using hb2
    exact hcol
  · intro a b ha hb
    obtain ⟨b2, hb2, _, hcol⟩ := hinv.2 a ha
    rw [hb] at hb2
    obtain rfl : b = b2 := by simpa using hb2
    exact hcol
  · intro a b flag pos th pr hab hm hcr
    rw [create_rect_eq a b flag m s pos th hm] at hcr
    obtain rfl : pr = _ := by simpa using hcr.symm
    have hcast : (a.column : ℚ) ≤ (b.column : ℚ) := Nat.cast_le.mpr hab
    have h1 : (1 : ℚ) ≤ (b.column : ℚ) + 1 - (a.column : ℚ) := by linarith
    refine ⟨rfl, fun hcw => ?_⟩
    calc s.cell_width = 1 * s.cell_width := (one_mul _).symm
    _ ≤ ((b.column : ℚ) + 1 - (a.column : ℚ)) * s.cell_width :=
      mul_le_mul_of_nonneg_right h1 (le_of_lt hcw)

/-- C10 witness: the column invariant and width bound at the concrete
reachable state rs1. -/
theorem claim_C10_witness :
    (∀ a b, rs1.underline_start = some a → rs1.last_cell = some b → a.column ≤ b.column) ∧
    (∀ a b, rs1.strikeout_start = some a → rs1.last_cell = some b → a.column ≤ b.column) ∧
    (∀ (a b : RenderableCell) (flag : Flags) (pos th : ℚ) (pr : Rect ℚ × Rgb),
      a.column ≤ b.column → metric_for flag m0 = some (pos, th) →
      create_rect a b flag m0 s0 = some pr →
      pr.1.width = ((b.column : ℚ) + 1 - (a.column : ℚ)) * s0.cell_width ∧
      (0 < s0.cell_width → s0.cell_width ≤ pr.1.width)) :=
  claim_C10_width_positive m0 s0 [Op.update (cu 0)] rs1 rfl

end Alacritty
